import Mathlib

/-!
Verification of the VeraLux HyperMetric Stretch core engine
(`src/core/VeraLuxEngine.cpp`, default build: `HMS_USE_MAD` not defined, so
the exact-percentile branches are the compiled code).

Modelling conventions.

* Image samples and all intermediate arithmetic are modelled as exact
  rationals (`ℚ`).  The engine computes in IEEE `double`/`float`; the
  properties verified here are the algebraic/structural ones of the
  algorithms, stated over exact arithmetic.
* The PCL library transcendentals `ArcSinh`, `Pow` and `Pow10` are external
  to the repository; they are abstracted as explicit function parameters
  (`asinh : ℚ → ℚ`, `powf : ℚ → ℚ → ℚ`, `pow10 : ℚ → ℚ`).  Theorems assume
  only the mathematical properties of the real functions that the proofs
  need (e.g. strict monotonicity of `arcsinh`), so every statement holds in
  particular for the real library functions.
* A single image channel is a `List ℚ` in scan order; a full image is a
  `PImage` (width, height, list of channels), each channel row-major, as in
  `pcl::Image` with its per-channel sample iterators.
* `pcl::GenericImage::Truncate(0,1)` on a freshly written sample is modelled
  per sample by `truncate01`.
-/

namespace VeraLux

/-- `pcl::GenericImage::Truncate(0.0, 1.0)` applied to one sample. -/
def truncate01 (x : ℚ) : ℚ := max 0 (min x 1)

/-- Number of indices `i < count` visited by `for (i = 0; i < count; i += stride)`
for `stride ≥ 1`. -/
def numStrided (count stride : ℕ) : ℕ := (count + stride - 1) / stride

/-- The subsample `data[0], data[stride], data[2*stride], ...` collected by the
strided loops of `VeraLuxEngine.cpp` (out-of-range reads default to 0; the
source never performs them on well-formed images). -/
def stridedOf (data : List ℚ) (count stride : ℕ) : List ℚ :=
  (List.range (numStrided count stride)).map fun k => data.getD (k * stride) 0

/-- `PercentileFromSorted` (VeraLuxEngine.cpp:39-56): linear-interpolation
percentile on an already sorted sample.  `pct` is clamped to `[0,100]`; the
value at fractional rank `pct/100 * (n-1)` is interpolated between the two
bracketing entries. -/
def PercentileFromSorted (sorted : List ℚ) (pct : ℚ) : ℚ :=
  if sorted.isEmpty then 0
  else
    let p := max 0 (min pct 100)
    if sorted.length = 1 then sorted.getD 0 0
    else
      let pos := p / 100 * ((sorted.length : ℚ) - 1)
      let i0 := (Int.floor pos).toNat
      let i1 := min (i0 + 1) (sorted.length - 1)
      let f := pos - (Int.floor pos : ℚ)
      let v0 := sorted.getD i0 0
      let v1 := sorted.getD i1 0
      v0 + f * (v1 - v0)

/-- The interpolation kernel of `PercentileFromSorted` as a function of the
fractional rank `pos`; used to reason about monotonicity in `pct`. -/
def interpAt (l : List ℚ) (pos : ℚ) : ℚ :=
  let i0 := (Int.floor pos).toNat
  let i1 := min (i0 + 1) (l.length - 1)
  l.getD i0 0 + (pos - (Int.floor pos : ℚ)) * (l.getD i1 0 - l.getD i0 0)

/-- `PercentileInPlace` (VeraLuxEngine.cpp:58-65): sort, then interpolate. -/
def PercentileInPlace (sample : List ℚ) (pct : ℚ) : ℚ :=
  if sample.isEmpty then 0
  else PercentileFromSorted (List.insertionSort (· ≤ ·) sample) pct

/-- `SubsamplePercentile` (VeraLuxEngine.cpp:67-79): percentile of every
`stride`-th sample (stride floored at 1). -/
def SubsamplePercentile (data : List ℚ) (count stride : ℕ) (pct : ℚ) : ℚ :=
  if count = 0 then 0
  else PercentileInPlace (stridedOf data count (max 1 stride)) pct

/-- The raw normalization denominator of `HyperbolicStretch`
(VeraLuxEngine.cpp:374-375): `asinh(D*(1-SP)+b) - asinh(b)` after flooring
`D` and `b` at 0.1. -/
def normFactorRaw (asinh : ℚ → ℚ) (D b SP : ℚ) : ℚ :=
  asinh (max D 0.1 * (1 - SP) + max b 0.1) - asinh (max b 0.1)

/-- The denominator actually divided by in `HyperbolicStretch`
(VeraLuxEngine.cpp:376-377): the raw value, replaced by `1e-6` exactly when
it equals zero. -/
def normFactorUsed (asinh : ℚ → ℚ) (D b SP : ℚ) : ℚ :=
  if normFactorRaw asinh D b SP = 0 then 1e-6 else normFactorRaw asinh D b SP

/-- One sample of `VeraLuxEngine::HyperbolicStretch` (VeraLuxEngine.cpp:368-392),
final `Truncate(0,1)` included. -/
def HyperbolicStretchSample (asinh : ℚ → ℚ) (D b SP x : ℚ) : ℚ :=
  truncate01 ((asinh (max D 0.1 * (x - SP) + max b 0.1) - asinh (max b 0.1)) /
    normFactorUsed asinh D b SP)

/-- `VeraLuxEngine::HyperbolicStretch` applied to one channel. -/
def HyperbolicStretch (asinh : ℚ → ℚ) (D b SP : ℚ) (channel : List ℚ) : List ℚ :=
  channel.map (HyperbolicStretchSample asinh D b SP)

/-- Median of a sorted sample: middle entry for odd length, mean of the two
central entries for even length (the statistic `pcl::ImageStatistics::Median`
computes for `SolveLogD`). -/
def medianOfSorted (l : List ℚ) : ℚ :=
  if l.length = 0 then 0
  else if l.length % 2 = 1 then l.getD (l.length / 2) 0
  else (l.getD (l.length / 2 - 1) 0 + l.getD (l.length / 2) 0) / 2

/-- The statistical median of a luminance channel
(`ImageStatistics stats; stats << luma; stats.Median()`). -/
def imageMedian (channel : List ℚ) : ℚ :=
  medianOfSorted (List.insertionSort (· ≤ ·) channel)

/-- The simulated stretch of the median performed inside `SolveLogD`'s
bisection body (VeraLuxEngine.cpp:418-425), including the `1e-6` guard. -/
def simulateStretchAt (asinh : ℚ → ℚ) (midD bVal medianIn : ℚ) : ℚ :=
  let term1 := asinh (midD * medianIn + bVal)
  let term2 := asinh bVal
  let nf0 := asinh (midD + bVal) - term2
  let nf := if nf0 = 0 then 1e-6 else nf0
  (term1 - term2) / nf

/-- The bisection loop of `SolveLogD` (VeraLuxEngine.cpp:413-437).  `fuel` is
the remaining iteration count (40 at the top call); the initial `bestLogD = 2.0`
is returned when the loop ends without the early `break`, and the midpoint is
returned on `break`. -/
def solveLogDLoop (asinh pow10 : ℚ → ℚ) (medianIn targetMedian bVal : ℚ) :
    ℕ → ℚ → ℚ → ℚ
  | 0, _, _ => 2
  | fuel + 1, lowLog, highLog =>
    let midLog := (lowLog + highLog) / 2
    let testVal := simulateStretchAt asinh (pow10 midLog) bVal medianIn
    if |testVal - targetMedian| < 0.0001 then midLog
    else if testVal < targetMedian then
      solveLogDLoop asinh pow10 medianIn targetMedian bVal fuel midLog highLog
    else
      solveLogDLoop asinh pow10 medianIn targetMedian bVal fuel lowLog midLog

/-- The sequence of midpoints the bisection of `SolveLogD` visits (the loop
stops after a midpoint whose simulated output hits the `1e-4` tolerance). -/
def solveLogDMidpoints (asinh pow10 : ℚ → ℚ) (medianIn targetMedian bVal : ℚ) :
    ℕ → ℚ → ℚ → List ℚ
  | 0, _, _ => []
  | fuel + 1, lowLog, highLog =>
    let midLog := (lowLog + highLog) / 2
    let testVal := simulateStretchAt asinh (pow10 midLog) bVal medianIn
    if |testVal - targetMedian| < 0.0001 then [midLog]
    else if testVal < targetMedian then
      midLog :: solveLogDMidpoints asinh pow10 medianIn targetMedian bVal fuel midLog highLog
    else
      midLog :: solveLogDMidpoints asinh pow10 medianIn targetMedian bVal fuel lowLog midLog

/-- `VeraLuxEngine::SolveLogD` (VeraLuxEngine.cpp:396-440): compute the
luminance median; return the default `2.0` when it is below `1e-9`, otherwise
bisect `logD ∈ [0,7]` for 40 iterations. -/
def SolveLogD (asinh pow10 : ℚ → ℚ) (luma : List ℚ) (targetMedian bVal : ℚ) : ℚ :=
  let medianIn := imageMedian luma
  if medianIn < 1e-9 then 2
  else solveLogDLoop asinh pow10 medianIn targetMedian bVal 40 0 7

/-- The per-pixel anchored color fraction extracted by `ReconstructColor`
(VeraLuxEngine.cpp:901-907): `orig_c / (origR + origG + origB + 1e-9)`. -/
def anchoredFrac (origR origG origB c : List ℚ) (i : ℕ) : ℚ :=
  c.getD i 0 / (origR.getD i 0 + origG.getD i 0 + origB.getD i 0 + 1e-9)

/-- One output sample of one channel of `ReconstructColor`'s RGB path
(VeraLuxEngine.cpp:915-963): white-point convergence, optional hybrid blend
with the scalar stretch, then the fixed pedestal `v*0.995 + 0.005` and the
final `Truncate(0,1)`. -/
def reconstructChannelAt (powf : ℚ → ℚ → ℚ) (luma origR origG origB : List ℚ)
    (colorConvergence colorGrip shadowConvergence : ℚ)
    (scalar c : List ℚ) (i : ℕ) : ℚ :=
  let L := luma.getD i 0
  let k := powf L colorConvergence
  let vec := L * (anchoredFrac origR origG origB c i * (1 - k) + 1 * k)
  let blended :=
    if colorGrip < 1 ∨ shadowConvergence > 0.01 then
      let gripMap := colorGrip *
        (if shadowConvergence > 0.01 then powf L shadowConvergence else 1)
      vec * gripMap + scalar.getD i 0 * (1 - gripMap)
    else vec
  truncate01 (blended * 0.995 + 0.005)

/-- `VeraLuxEngine::ReconstructColor` (VeraLuxEngine.cpp:877-964) on a
3-channel image (the mono early-return just copies the luminance).  All images
share the pixel count of `originalRGB`.  The per-channel scalar stretch is the
hybrid-blend input; it is computed with `HyperbolicStretch(scalar, D, b)`,
i.e. with the default `SP = 0`, and only read when the hybrid branch runs. -/
def ReconstructColorRGB (asinh : ℚ → ℚ) (powf : ℚ → ℚ → ℚ)
    (luma origR origG origB : List ℚ)
    (colorConvergence colorGrip shadowConvergence D b : ℚ) :
    List ℚ × List ℚ × List ℚ :=
  let N := origR.length
  let out := fun (c scalar : List ℚ) => (List.range N).map
    (reconstructChannelAt powf luma origR origG origB
      colorConvergence colorGrip shadowConvergence scalar c)
  (out origR (HyperbolicStretch asinh D b 0 origR),
   out origG (HyperbolicStretch asinh D b 0 origG),
   out origB (HyperbolicStretch asinh D b 0 origB))

/-- The sample formats a `pcl::ImageVariant` source can carry in
`NormalizeInput`: 8/16/32-bit integer, 32/64-bit float, or complex. -/
inductive SampleFormat where
  | uint8 | uint16 | uint32 | float32 | float64 | complex
deriving DecidableEq

/-- A source image for `NormalizeInput`: its sample format and its sample
values (each integer sample as its numeric value). -/
structure SourceImage where
  format : SampleFormat
  samples : List ℚ

/-- The message of the `pcl::Error` thrown by `NormalizeInput` on complex
input (VeraLuxEngine.cpp:141). -/
def complexErrorText : String := "Complex images are not supported."

/-- The NaN/Inf/negative sanitization loop of `NormalizeInput`
(VeraLuxEngine.cpp:166-174); rationals are always finite, so only the
negative branch is representable. -/
def sanitizeSamples (l : List ℚ) : List ℚ := l.map fun v => if v < 0 then 0 else v

/-- `VeraLuxEngine::NormalizeInput` (VeraLuxEngine.cpp:112-177).  Float input
is rescaled when its maximum exceeds 1.1; integer input is divided by the
format's maximum; complex input throws before any processing.  Every success
path ends with sanitization and `Truncate(0,1)`. -/
def NormalizeInput (source : SourceImage) : Except String (List ℚ) :=
  match source.format with
  | .float32 | .float64 =>
    let t := source.samples
    let maxVal := t.foldl max 0
    let t := if maxVal > 1.1 then
        (if maxVal < 100000 then t.map (· / 65535) else t.map (· / 4294967295))
      else t
    .ok ((sanitizeSamples t).map truncate01)
  | .complex => .error complexErrorText
  | .uint8 => .ok ((sanitizeSamples (source.samples.map (· / 255))).map truncate01)
  | .uint16 => .ok ((sanitizeSamples (source.samples.map (· / 65535))).map truncate01)
  | .uint32 => .ok ((sanitizeSamples (source.samples.map (· / 4294967295))).map truncate01)

/-- A `pcl::Image`: width, height and a list of channels, each channel a
row-major list of samples. -/
structure PImage where
  width : ℕ
  height : ℕ
  channels : List (List ℚ)
deriving DecidableEq

/-- `NumberOfPixels()`. -/
def imagePixels (img : PImage) : ℕ := img.width * img.height

/-- The sample data of channel `c` (`img[c]`). -/
def channelOf (img : PImage) (c : ℕ) : List ℚ := img.channels.getD c []

/-- `img(x, y, c)`; `target(x, y)` in the source reads channel 0. -/
def sampleAt (img : PImage) (c x y : ℕ) : ℚ :=
  (channelOf img c).getD (y * img.width + x) 0

/-- All samples of all channels in channel-major scan order (the order of
`pcl`'s whole-image sample iteration). -/
def allSamples (img : PImage) : List ℚ := img.channels.flatten

/-- `VeraLuxEngine::CalculateAnchor` (VeraLuxEngine.cpp:181-217): subsampled
0.5th percentile floor per channel, minimum over channels for RGB, then
`max(0, floor - 0.00025)`. -/
def CalculateAnchor (img : PImage) : ℚ :=
  let nChannels := img.channels.length
  let nPixels := imagePixels img
  let totalSize := nPixels * max 1 nChannels
  if nChannels = 3 then
    let stride := max 1 (totalSize / 500000)
    let minFloor := (List.range 3).foldl
      (fun m c => min m (SubsamplePercentile (channelOf img c) nPixels stride 0.5)) 1
    max 0 (minFloor - 0.00025)
  else
    let stride := max 1 (totalSize / 200000)
    max 0 (SubsamplePercentile (channelOf img 0) nPixels stride 0.5 - 0.00025)

/-- A sensor profile: the three quantum-efficiency luminance weights. -/
structure SensorProfile where
  rWeight : ℚ
  gWeight : ℚ
  bWeight : ℚ

/-- The luminance channel built at the top of `CalculateAnchorAdaptive`
(VeraLuxEngine.cpp:225-249): sensor-weighted sum for 3-channel images,
channel 0 otherwise. -/
def lumaChannelOf (img : PImage) (profile : SensorProfile) : List ℚ :=
  if img.channels.length = 3 then
    (List.range (imagePixels img)).map fun i =>
      profile.rWeight * (channelOf img 0).getD i 0 +
        profile.gWeight * (channelOf img 1).getD i 0 +
        profile.bWeight * (channelOf img 2).getD i 0
  else channelOf img 0

/-- The histogram bin of one (already `[0,1]`-clamped) sample
(VeraLuxEngine.cpp:271-275): nudge below 1, scale by 65536, clamp the index. -/
def histBinOf (v : ℚ) : ℕ :=
  min (Int.toNat (Int.floor (min v 0.999999 * 65536))) 65535

/-- The `[0,1]`-clamped strided subsample retained by `CalculateAnchorAdaptive`
(VeraLuxEngine.cpp:257-276). -/
def adaptiveSubsample (img : PImage) (profile : SensorProfile) : List ℚ :=
  let data := lumaChannelOf img profile
  let N := imagePixels img
  let stride := max 1 (N / 2000000)
  (List.range (numStrided N stride)).map fun k =>
    max 0 (min (data.getD (k * stride) 0) 1)

/-- The 65536-bin histogram of the subsample. -/
def histCounts (sample : List ℚ) (bin : ℕ) : ℕ :=
  sample.countP fun v => histBinOf v == bin

/-- `SmoothHistogramBox50` (VeraLuxEngine.cpp:86-109) at bin `i`: the 50-wide
zero-padded box filter `(sum of hist[i-25 .. i+24]) / 50`. -/
def smoothedHistAt (h : ℕ → ℕ) (i : ℕ) : ℚ :=
  (Finset.range 50).sum (fun k =>
    let j : ℤ := (i : ℤ) - 25 + (k : ℤ)
    if 0 ≤ j ∧ j < 65536 then ((h j.toNat : ℚ)) else 0) / 50

/-- `Max`-fold of `f` over a list of indices, seeded with `init`. -/
def foldMaxOver (f : ℕ → ℚ) (l : List ℕ) (init : ℚ) : ℚ :=
  l.foldl (fun a i => max a (f i)) init

/-- The peak search of `CalculateAnchorAdaptive` (VeraLuxEngine.cpp:294-303):
start at `start`, replace the running best only on a strictly larger value. -/
def peakScan (f : ℕ → ℚ) (start bins : ℕ) : ℕ × ℚ :=
  (List.range' (start + 1) (bins - (start + 1))).foldl
    (fun best i => if f i > best.2 then (i, f i) else best) (start, f start)

/-- The `anchorIdx` loop (VeraLuxEngine.cpp:308-311): the last `i < n` with
`f i < bound`, if any. -/
def lastBelow (f : ℕ → ℚ) (bound : ℚ) (n : ℕ) : Option ℕ :=
  (List.range n).foldl (fun acc i => if f i < bound then some i else acc) none

/-- `VeraLuxEngine::CalculateAnchorAdaptive` (VeraLuxEngine.cpp:221-326). -/
def CalculateAnchorAdaptive (img : PImage) (profile : SensorProfile) : ℚ :=
  let sample := adaptiveSubsample img profile
  let hs := smoothedHistAt (histCounts sample)
  let searchStart0 : ℕ := if 100 ≥ 65536 then 0 else 100
  let maxBefore := foldMaxOver hs (List.range (min 65536 100)) 0
  let searchStart := if maxBefore > 0 then 0 else searchStart0
  let peak := peakScan hs searchStart 65536
  let targetVal := peak.2 * 0.06
  let anchor := match lastBelow hs targetVal peak.1 with
    | some idx => (idx : ℚ) / 65536
    | none => PercentileInPlace sample 0.5
  max 0 anchor

/-- A valid normalized input image: nonempty, every sample in `[0,1]`. -/
def validImage (img : PImage) : Prop :=
  0 < imagePixels img ∧ ∀ ch ∈ img.channels, ∀ v ∈ ch, 0 ≤ v ∧ v ≤ 1

/-- An image whose samples are all exactly zero. -/
def allZeroImage (img : PImage) : Prop :=
  ∀ ch ∈ img.channels, ∀ v ∈ ch, v = 0

/-- `MaximumSampleValue()` over all channels. -/
def MaximumSampleValue (img : PImage) : ℚ := (allSamples img).foldl max 0

/-- `LocateMaximumSampleValue(maxPos)`: the `(x, y)` position of the first
sample (channel-major scan order) equal to the maximum. -/
def locateMaxPos (img : PImage) : ℕ × ℕ :=
  let idx := (allSamples img).findIdx fun v => decide (v = MaximumSampleValue img)
  let rem := idx % imagePixels img
  (rem % img.width, rem / img.width)

/-- The Smart-Max 3×3 neighborhood scan of `ApplyLinearExpansion`
(VeraLuxEngine.cpp:498-513): the largest neighbor sample strictly below
`absMax`, read through `target(x, y)` — i.e. from channel 0. -/
def smartMaxNeighbor (img : PImage) (pos : ℕ × ℕ) (absMax : ℚ) : ℚ :=
  let y0 := pos.2 - 1
  let y1 := min img.height (pos.2 + 2)
  let x0 := pos.1 - 1
  let x1 := min img.width (pos.1 + 2)
  (List.range' y0 (y1 - y0)).foldl
    (fun acc y =>
      (List.range' x0 (x1 - x0)).foldl
        (fun acc2 x =>
          if sampleAt img 0 x y < absMax then max acc2 (sampleAt img 0 x y) else acc2)
        acc)
    0

/-- The Smart-Max decision (VeraLuxEngine.cpp:489-518): trust the absolute
maximum only when some strictly-smaller neighbor reaches 20% of it. -/
def useAbsoluteMax (img : PImage) : Bool :=
  let absMax := MaximumSampleValue img
  if absMax > 0.001 then
    decide (smartMaxNeighbor img (locateMaxPos img) absMax ≥ absMax * 0.20)
  else false

/-- The all-channel strided subsample of `ApplyLinearExpansion`
(VeraLuxEngine.cpp:541-553). -/
def expansionSubsample (img : PImage) : List ℚ :=
  let N := imagePixels img
  let stride := max 1 (N / 500000)
  (img.channels.map fun ch => stridedOf ch N stride).flatten

/-- The low bound of `ApplyLinearExpansion`: exact 0.001 percentile of the
subsample (VeraLuxEngine.cpp:556). -/
def expansionLow (img : PImage) : ℚ :=
  PercentileInPlace (expansionSubsample img) 0.001

/-- The high bound of `ApplyLinearExpansion` (VeraLuxEngine.cpp:558-566): the
absolute maximum when Smart Max trusts it, else the exact 99.999 percentile. -/
def expansionHigh (img : PImage) : ℚ :=
  if useAbsoluteMax img then MaximumSampleValue img
  else PercentileFromSorted (List.insertionSort (· ≤ ·) (expansionSubsample img)) 99.999

/-- `pcl::LinearExpansionStats` (VeraLuxEngine.h): clamp percentages and the
resolved bounds. -/
structure LinearExpansionStats where
  pctLow : ℚ
  pctHigh : ℚ
  low : ℚ
  high : ℚ
deriving DecidableEq

/-- `VeraLuxEngine::ApplyLinearExpansion` (VeraLuxEngine.cpp:471-618), exact
percentile branch, diagnostics requested: returns the transformed image and
the diagnostics record. -/
def ApplyLinearExpansion (img : PImage) (factor : ℚ) : PImage × LinearExpansionStats :=
  if factor ≤ 0.001 then (img, ⟨0, 0, 0, 0⟩)
  else
    let factor := max 0 (min factor 1)
    let low := expansionLow img
    let high := expansionHigh img
    if high ≤ low then (img, ⟨0, 0, low, high⟩)
    else
      let total := imagePixels img * img.channels.length
      let countLow := (allSamples img).countP fun v => decide (v ≤ low)
      let countHigh := (allSamples img).countP fun v => decide (v ≥ high)
      let out := img.channels.map (List.map fun v =>
        v * (1 - factor) + truncate01 ((v - low) / (high - low)) * factor)
      (⟨img.width, img.height, out⟩,
        ⟨(countLow : ℚ) * 100 / (total : ℚ), (countHigh : ℚ) * 100 / (total : ℚ),
          low, high⟩)

/-! ## General helper lemmas -/

theorem truncate01_mono {u v : ℚ} (h : u ≤ v) : truncate01 u ≤ truncate01 v :=
  max_le_max le_rfl (min_le_min h le_rfl)

theorem truncate01_of_one_le {v : ℚ} (h : 1 ≤ v) : truncate01 v = 1 := by
  rw [truncate01, min_eq_right h]
  norm_num

theorem truncate01_eq_self {v : ℚ} (h0 : 0 ≤ v) (h1 : v ≤ 1) : truncate01 v = v := by
  rw [truncate01, min_eq_left h1, max_eq_right h0]

theorem getD_eq_zero_of_all_zero {l : List ℚ} (h : ∀ v ∈ l, v = 0) (i : ℕ) :
    l.getD i 0 = 0 := by
  by_cases hi : i < l.length
  · rw [List.getD_eq_getElem l 0 hi]
    exact h _ (List.getElem_mem hi)
  · exact List.getD_eq_default l 0 (le_of_not_lt hi)

theorem sorted_getD_mono {l : List ℚ} (hs : l.Sorted (· ≤ ·)) {i j : ℕ}
    (hij : i ≤ j) (hj : j < l.length) : l.getD i 0 ≤ l.getD j 0 := by
  have hi : i < l.length := lt_of_le_of_lt hij hj
  rw [List.getD_eq_getElem l 0 hi, List.getD_eq_getElem l 0 hj]
  have := hs.rel_get_of_le (a := ⟨i, hi⟩) (b := ⟨j, hj⟩) (Fin.mk_le_mk.mpr hij)
  simpa using this

theorem getD_map_range (f : ℕ → ℚ) {n i : ℕ} (hi : i < n) :
    ((List.range n).map f).getD i 0 = f i := by
  rw [List.getD_eq_getElem _ 0 (by simpa using hi)]
  simp

/-! ## Percentile function (claim C7) -/

theorem clampPct_nonneg (pct : ℚ) : 0 ≤ max 0 (min pct 100) := le_max_left 0 _

theorem clampPct_le_100 (pct : ℚ) : max 0 (min pct 100) ≤ 100 :=
  max_le (by norm_num) (min_le_right _ _)

theorem clampPct_idem (pct : ℚ) :
    max 0 (min (max 0 (min pct 100)) 100) = max 0 (min pct 100) := by
  rw [min_eq_left (clampPct_le_100 pct), max_eq_right (clampPct_nonneg pct)]

theorem percentileFromSorted_eq_interpAt {l : List ℚ} (h2 : 2 ≤ l.length) (pct : ℚ) :
    PercentileFromSorted l pct =
      interpAt l (max 0 (min pct 100) / 100 * ((l.length : ℚ) - 1)) := by
  have he : l.isEmpty = false := by
    cases l
    · simp at h2
    · simp
  have h1 : ¬ l.length = 1 := by omega
  simp only [PercentileFromSorted, interpAt, he, Bool.false_eq_true, if_false, h1]

theorem percentileFromSorted_all_zero {l : List ℚ} (h : ∀ v ∈ l, v = 0) (pct : ℚ) :
    PercentileFromSorted l pct = 0 := by
  rcases l with _ | ⟨a, l'⟩
  · simp [PercentileFromSorted]
  · rcases l' with _ | ⟨b, l''⟩
    · have ha : a = 0 := h a (by simp)
      subst ha
      simp [PercentileFromSorted]
    · rw [percentileFromSorted_eq_interpAt (by simp)]
      simp only [interpAt]
      rw [getD_eq_zero_of_all_zero h, getD_eq_zero_of_all_zero h]
      ring

theorem percentileInPlace_all_zero {l : List ℚ} (h : ∀ v ∈ l, v = 0) (pct : ℚ) :
    PercentileInPlace l pct = 0 := by
  unfold PercentileInPlace
  split
  · rfl
  · exact percentileFromSorted_all_zero
      (fun v hv => h v ((List.perm_insertionSort (· ≤ ·) l).mem_iff.mp hv)) pct

theorem interpAt_mono {l : List ℚ} (hs : l.Sorted (· ≤ ·)) (hn : 2 ≤ l.length)
    {a b : ℚ} (hab : a ≤ b) (ha : 0 ≤ a) (hb : b ≤ (l.length : ℚ) - 1) :
    interpAt l a ≤ interpAt l b := by
  have hfa0 : (0 : ℤ) ≤ ⌊a⌋ := Int.le_floor.mpr (by exact_mod_cast ha)
  have hfab : ⌊a⌋ ≤ ⌊b⌋ := Int.floor_le_floor hab
  have hfb0 : (0 : ℤ) ≤ ⌊b⌋ := le_trans hfa0 hfab
  have hcast : ((l.length : ℚ) - 1) = ((l.length - 1 : ℕ) : ℚ) := by
    have : (1 : ℕ) ≤ l.length := by omega
    push_cast [this]
    ring
  have hfbn : ⌊b⌋ ≤ (l.length : ℤ) - 1 := by
    have h := Int.floor_le_floor hb
    rw [hcast, Int.floor_natCast] at h
    omega
  have hia : (⌊a⌋.toNat : ℤ) = ⌊a⌋ := Int.toNat_of_nonneg hfa0
  have hib : (⌊b⌋.toNat : ℤ) = ⌊b⌋ := Int.toNat_of_nonneg hfb0
  have hiab : ⌊a⌋.toNat ≤ ⌊b⌋.toNat := Int.toNat_le_toNat hfab
  have hibn : ⌊b⌋.toNat ≤ l.length - 1 := by omega
  have hian : ⌊a⌋.toNat ≤ l.length - 1 := le_trans hiab hibn
  have hfa_lo : (⌊a⌋ : ℚ) ≤ a := Int.floor_le a
  have hfa_hi : a < (⌊a⌋ : ℚ) + 1 := Int.lt_floor_add_one a
  have hfb_lo : (⌊b⌋ : ℚ) ≤ b := Int.floor_le b
  have hfb_hi : b < (⌊b⌋ : ℚ) + 1 := Int.lt_floor_add_one b
  rcases eq_or_lt_of_le hiab with heq | hlt
  · -- same interpolation cell
    have hfeq : ⌊a⌋ = ⌊b⌋ := by omega
    simp only [interpAt]
    rw [heq, hfeq]
    have hv01 : l.getD ⌊b⌋.toNat 0 ≤ l.getD (min (⌊b⌋.toNat + 1) (l.length - 1)) 0 := by
      apply sorted_getD_mono hs (le_min (by omega) hibn) (by omega)
    have hprod := mul_nonneg (sub_nonneg.mpr hab) (sub_nonneg.mpr hv01)
    nlinarith [hprod]
  · -- the floor strictly increases: chain through the cell boundary
    have h1a : interpAt l a ≤ l.getD (min (⌊a⌋.toNat + 1) (l.length - 1)) 0 := by
      simp only [interpAt]
      have hv01 : l.getD ⌊a⌋.toNat 0 ≤ l.getD (min (⌊a⌋.toNat + 1) (l.length - 1)) 0 :=
        sorted_getD_mono hs (le_min (by omega) hian) (by omega)
      have hf1 : a - (⌊a⌋ : ℚ) ≤ 1 := by linarith
      have hprod := mul_nonneg (sub_nonneg.mpr hf1) (sub_nonneg.mpr hv01)
      nlinarith [hprod]
    have h2a : l.getD (min (⌊a⌋.toNat + 1) (l.length - 1)) 0 ≤ l.getD ⌊b⌋.toNat 0 :=
      sorted_getD_mono hs (le_trans (min_le_left _ _) (by omega)) (by omega)
    have h3a : l.getD ⌊b⌋.toNat 0 ≤ interpAt l b := by
      simp only [interpAt]
      have hv01 : l.getD ⌊b⌋.toNat 0 ≤ l.getD (min (⌊b⌋.toNat + 1) (l.length - 1)) 0 :=
        sorted_getD_mono hs (le_min (by omega) hibn) (by omega)
      have hf0 : 0 ≤ b - (⌊b⌋ : ℚ) := by linarith
      have hprod := mul_nonneg hf0 (sub_nonneg.mpr hv01)
      nlinarith [hprod]
    calc interpAt l a ≤ _ := h1a
      _ ≤ _ := h2a
      _ ≤ interpAt l b := h3a

theorem percentileFromSorted_mono {l : List ℚ} (hs : l.Sorted (· ≤ ·)) {p q : ℚ}
    (hpq : p ≤ q) : PercentileFromSorted l p ≤ PercentileFromSorted l q := by
  by_cases he : l.isEmpty
  · simp [PercentileFromSorted, he]
  · by_cases h1 : l.length = 1
    · simp [PercentileFromSorted, he, h1]
  -- at least two entries: reduce to interpAt monotonicity
    · have h2 : 2 ≤ l.length := by
        rcases l with _ | ⟨x, l'⟩
        · simp at he
        · simp only [List.length_cons] at h1 ⊢
          omega
      rw [percentileFromSorted_eq_interpAt h2, percentileFromSorted_eq_interpAt h2]
      have hn1 : (1 : ℚ) ≤ (l.length : ℚ) - 1 := by
        have : (2 : ℚ) ≤ (l.length : ℚ) := by exact_mod_cast h2
        linarith
      apply interpAt_mono hs h2
      · apply mul_le_mul_of_nonneg_right
        · apply div_le_div_of_nonneg_right _ (by norm_num)
          exact max_le_max le_rfl (min_le_min hpq le_rfl)
        · linarith
      · exact mul_nonneg (div_nonneg (clampPct_nonneg p) (by norm_num)) (by linarith)
      · have hq1 : max 0 (min q 100) / 100 ≤ 1 := by
          have := clampPct_le_100 q
          linarith
        have hpos : (0 : ℚ) ≤ (l.length : ℚ) - 1 := by linarith
        calc max 0 (min q 100) / 100 * ((l.length : ℚ) - 1)
            ≤ 1 * ((l.length : ℚ) - 1) := mul_le_mul_of_nonneg_right hq1 hpos
          _ = (l.length : ℚ) - 1 := one_mul _

theorem percentileFromSorted_at_zero {l : List ℚ} (hl : l ≠ []) :
    PercentileFromSorted l 0 = l.getD 0 0 := by
  by_cases h1 : l.length = 1
  · have he : l.isEmpty = false := by simp [List.isEmpty_iff, hl]
    simp [PercentileFromSorted, he, h1]
  · have h2 : 2 ≤ l.length := by
      have : l.length ≠ 0 := by simp [List.length_eq_zero, hl]
      omega
    rw [percentileFromSorted_eq_interpAt h2]
    have hc : max 0 (min (0 : ℚ) 100) = 0 := by norm_num
    rw [hc]
    unfold interpAt
    norm_num

theorem percentileFromSorted_at_hundred {l : List ℚ} (hl : l ≠ []) :
    PercentileFromSorted l 100 = l.getD (l.length - 1) 0 := by
  by_cases h1 : l.length = 1
  · have he : l.isEmpty = false := by simp [List.isEmpty_iff, hl]
    simp [PercentileFromSorted, he, h1]
  · have h2 : 2 ≤ l.length := by
      have : l.length ≠ 0 := by simp [List.length_eq_zero, hl]
      omega
    rw [percentileFromSorted_eq_interpAt h2]
    have hc : max 0 (min (100 : ℚ) 100) = 100 := by norm_num
    rw [hc]
    have hpos : (100 : ℚ) / 100 * ((l.length : ℚ) - 1) = ((l.length - 1 : ℕ) : ℚ) := by
      have h1n : (1 : ℕ) ≤ l.length := by omega
      push_cast [h1n]
      ring
    rw [hpos]
    simp only [interpAt, Int.floor_natCast, Int.toNat_natCast]
    rw [min_eq_right (by omega : l.length - 1 ≤ l.length - 1 + 1)]
    push_cast
    ring

theorem percentileFromSorted_clamps (l : List ℚ) (pct : ℚ) :
    PercentileFromSorted l pct = PercentileFromSorted l (max 0 (min pct 100)) := by
  by_cases he : l.isEmpty
  · simp [PercentileFromSorted, he]
  · by_cases h1 : l.length = 1
    · simp [PercentileFromSorted, he, h1]
    · have h2 : 2 ≤ l.length := by
        rcases l with _ | ⟨x, l'⟩
        · simp at he
        · simp only [List.length_cons] at h1 ⊢
          omega
      rw [percentileFromSorted_eq_interpAt h2, percentileFromSorted_eq_interpAt h2,
        clampPct_idem]

/-- C7: on a sorted sample, the percentile helper returns 0 for an empty
input, the sole element for a single-element input, the minimum at `pct = 0`,
the maximum at `pct = 100`, clamps `pct` to `[0,100]`, is monotone
non-decreasing in `pct`, and linearly interpolates between bracketing ranks
(2.5 for `[1,2,3,4]` at 50). -/
theorem C7_percentile_spec (l : List ℚ) (pct p q : ℚ)
    (hs : l.Sorted (· ≤ ·)) (hpq : p ≤ q) :
    PercentileFromSorted [] pct = 0 ∧
    (∀ a : ℚ, PercentileFromSorted [a] pct = a) ∧
    (l ≠ [] → PercentileFromSorted l 0 = l.getD 0 0) ∧
    (l ≠ [] → PercentileFromSorted l 100 = l.getD (l.length - 1) 0) ∧
    PercentileFromSorted l pct = PercentileFromSorted l (max 0 (min pct 100)) ∧
    PercentileFromSorted l p ≤ PercentileFromSorted l q ∧
    PercentileFromSorted [1, 2, 3, 4] 50 = 5 / 2 := by
  refine ⟨by simp [PercentileFromSorted], fun a => by simp [PercentileFromSorted],
    fun hl => percentileFromSorted_at_zero hl,
    fun hl => percentileFromSorted_at_hundred hl,
    percentileFromSorted_clamps l pct,
    percentileFromSorted_mono hs hpq, ?_⟩
  rw [percentileFromSorted_eq_interpAt (l := [1, 2, 3, 4]) (by norm_num)]
  have hc : max 0 (min (50 : ℚ) 100) = 50 := by norm_num
  rw [hc]
  have hpos : (50 : ℚ) / 100 * (((List.length [(1 : ℚ), 2, 3, 4] : ℕ) : ℚ) - 1) = 3 / 2 := by
    norm_num
  rw [hpos]
  unfold interpAt
  norm_num

theorem C7_percentile_spec_witness :
    PercentileFromSorted [1, 2, 3, 4] 10 ≤ PercentileFromSorted [1, 2, 3, 4] 90 :=
  (C7_percentile_spec [1, 2, 3, 4] 37 10 90 (by decide) (by norm_num)).2.2.2.2.2.1

/-! ## Hyperbolic transfer (claims C3, C6) -/

theorem hyperbolicStretchSample_mono (asinh : ℚ → ℚ) (hm : StrictMono asinh)
    (D b SP : ℚ) {x y : ℚ} (hxy : x ≤ y) (hy : y ≤ 1) :
    HyperbolicStretchSample asinh D b SP x ≤ HyperbolicStretchSample asinh D b SP y := by
  have hD : (0 : ℚ) < max D 0.1 := lt_max_of_lt_right (by norm_num)
  have hnum : asinh (max D 0.1 * (x - SP) + max b 0.1) ≤
      asinh (max D 0.1 * (y - SP) + max b 0.1) := by
    apply hm.monotone
    have := mul_le_mul_of_nonneg_left (sub_le_sub_right hxy SP) hD.le
    linarith
  unfold HyperbolicStretchSample
  rcases lt_trichotomy (normFactorRaw asinh D b SP) 0 with hneg | hz | hpos
  · -- negative raw denominator: every sample ≤ 1 lands at the clamp value 1
    have hused : normFactorUsed asinh D b SP = normFactorRaw asinh D b SP := by
      unfold normFactorUsed
      rw [if_neg (ne_of_lt hneg)]
    have key : ∀ t : ℚ, t ≤ 1 →
        asinh (max D 0.1 * (t - SP) + max b 0.1) - asinh (max b 0.1) ≤
          normFactorRaw asinh D b SP := by
      intro t ht
      unfold normFactorRaw
      have harg : max D 0.1 * (t - SP) ≤ max D 0.1 * (1 - SP) :=
        mul_le_mul_of_nonneg_left (by linarith) hD.le
      have := hm.monotone
        (by linarith : max D 0.1 * (t - SP) + max b 0.1 ≤ max D 0.1 * (1 - SP) + max b 0.1)
      linarith
    have h1x : (1 : ℚ) ≤ (asinh (max D 0.1 * (x - SP) + max b 0.1) - asinh (max b 0.1)) /
        normFactorUsed asinh D b SP := by
      rw [hused, le_div_iff_of_neg hneg]
      simpa using key x (le_trans hxy hy)
    have h1y : (1 : ℚ) ≤ (asinh (max D 0.1 * (y - SP) + max b 0.1) - asinh (max b 0.1)) /
        normFactorUsed asinh D b SP := by
      rw [hused, le_div_iff_of_neg hneg]
      simpa using key y hy
    rw [truncate01_of_one_le h1x, truncate01_of_one_le h1y]
  · -- zero raw denominator: the 1e-6 guard keeps the division monotone
    have hused : normFactorUsed asinh D b SP = 1e-6 := by
      unfold normFactorUsed
      rw [if_pos hz]
    rw [hused]
    exact truncate01_mono ((div_le_div_iff_of_pos_right (by norm_num)).mpr (by linarith))
  · -- positive raw denominator: plain monotone division
    have hused : normFactorUsed asinh D b SP = normFactorRaw asinh D b SP := by
      unfold normFactorUsed
      rw [if_neg (ne_of_gt hpos)]
    rw [hused]
    exact truncate01_mono ((div_le_div_iff_of_pos_right hpos).mpr (by linarith))

/-- C3: with the internal flooring of `D` and `b` at 0.1, the hyperbolic
transfer maps `x = 0` to exactly 0 and `x = 1` to exactly 1 when `SP = 0`,
and for fixed `D`, `b`, `SP` it is monotone non-decreasing on the sample
domain (`x ≤ y ≤ 1`); this holds for every strictly monotone `asinh`, hence
for the real `ArcSinh`. -/
theorem C3_hyperbolic_transfer (asinh : ℚ → ℚ) (hm : StrictMono asinh)
    (D b SP x y : ℚ) (hxy : x ≤ y) (hy : y ≤ 1) :
    HyperbolicStretchSample asinh D b 0 0 = 0 ∧
    HyperbolicStretchSample asinh D b 0 1 = 1 ∧
    HyperbolicStretchSample asinh D b SP x ≤ HyperbolicStretchSample asinh D b SP y := by
  refine ⟨?_, ?_, hyperbolicStretchSample_mono asinh hm D b SP hxy hy⟩
  · unfold HyperbolicStretchSample
    rw [show max D 0.1 * ((0 : ℚ) - 0) + max b 0.1 = max b 0.1 by ring, sub_self, zero_div]
    simp [truncate01]
  · have hD : (0 : ℚ) < max D 0.1 := lt_max_of_lt_right (by norm_num)
    have hraw : 0 < normFactorRaw asinh D b 0 := by
      unfold normFactorRaw
      have harg : max b 0.1 < max D 0.1 * (1 - 0) + max b 0.1 := by nlinarith
      have := hm harg
      linarith
    have hused : normFactorUsed asinh D b 0 = normFactorRaw asinh D b 0 := by
      unfold normFactorUsed
      rw [if_neg hraw.ne']
    unfold HyperbolicStretchSample
    rw [show asinh (max D 0.1 * ((1 : ℚ) - 0) + max b 0.1) - asinh (max b 0.1) =
        normFactorRaw asinh D b 0 from rfl, hused, div_self hraw.ne']
    exact truncate01_of_one_le le_rfl

theorem C3_hyperbolic_transfer_witness :
    HyperbolicStretchSample id 1 1 0 0 = 0 ∧ HyperbolicStretchSample id 1 1 0 1 = 1 ∧
    HyperbolicStretchSample id 1 1 0 (1 / 4) ≤ HyperbolicStretchSample id 1 1 0 (3 / 4) :=
  C3_hyperbolic_transfer id strictMono_id 1 1 0 (1 / 4) (3 / 4) (by norm_num) (by norm_num)

/-- C6 (amended): the divisor `HyperbolicStretch` actually uses is never
zero — the raw normalization value is used unchanged whenever it is nonzero
and is replaced by exactly `1e-6` only when it equals zero — and for
`SP ≤ 1` the divisor is positive.  (The claim's bound `≥ 1e-6` fails: for
`SP > 1` the raw value can be negative and is then used as-is.) -/
theorem C6_normFactor_guard (asinh : ℚ → ℚ) (hm : StrictMono asinh) (D b SP : ℚ) :
    normFactorUsed asinh D b SP ≠ 0 ∧ (SP ≤ 1 → 0 < normFactorUsed asinh D b SP) := by
  have hnonneg : SP ≤ 1 → 0 ≤ normFactorRaw asinh D b SP := by
    intro hsp
    unfold normFactorRaw
    have hD : (0 : ℚ) < max D 0.1 := lt_max_of_lt_right (by norm_num)
    have harg : max b 0.1 ≤ max D 0.1 * (1 - SP) + max b 0.1 := by nlinarith
    have := hm.monotone harg
    linarith
  by_cases hz : normFactorRaw asinh D b SP = 0
  · have hused : normFactorUsed asinh D b SP = 1e-6 := by
      unfold normFactorUsed
      rw [if_pos hz]
    rw [hused]
    exact ⟨by norm_num, fun _ => by norm_num⟩
  · have hused : normFactorUsed asinh D b SP = normFactorRaw asinh D b SP := by
      unfold normFactorUsed
      rw [if_neg hz]
    rw [hused]
    exact ⟨hz, fun hsp => lt_of_le_of_ne (hnonneg hsp) (Ne.symm hz)⟩

theorem C6_normFactor_guard_witness : 0 < normFactorUsed id 1 1 0 :=
  (C6_normFactor_guard id strictMono_id 1 1 0).2 (by norm_num)

theorem C6_counterexample : normFactorUsed id 0.1 0.1 2 < 1e-6 := by
  have hraw : normFactorRaw id 0.1 0.1 2 = -0.1 := by
    unfold normFactorRaw
    norm_num
  unfold normFactorUsed
  rw [hraw]
  norm_num

/-! ## SolveLogD (claims C1, C9) -/

theorem solveLogDLoop_default_or_hit (asinh pow10 : ℚ → ℚ) (m t b : ℚ) :
    ∀ (fuel : ℕ) (lo hi : ℚ),
      solveLogDLoop asinh pow10 m t b fuel lo hi = 2 ∨
        |simulateStretchAt asinh (pow10 (solveLogDLoop asinh pow10 m t b fuel lo hi)) b m
          - t| < 0.0001 := by
  intro fuel
  induction fuel with
  | zero => intro lo hi; exact Or.inl rfl
  | succ n ih =>
    intro lo hi
    simp only [solveLogDLoop]
    split_ifs with h1 h2
    · exact Or.inr h1
    · exact ih _ _
    · exact ih _ _

theorem solveLogDLoop_const_miss (asinh pow10 : ℚ → ℚ) (m t b c : ℚ)
    (hc : ∀ x : ℚ, simulateStretchAt asinh (pow10 x) b m = c)
    (hmiss : ¬ |c - t| < 0.0001) :
    ∀ (fuel : ℕ) (lo hi : ℚ), solveLogDLoop asinh pow10 m t b fuel lo hi = 2 := by
  intro fuel
  induction fuel with
  | zero => intro lo hi; rfl
  | succ n ih =>
    intro lo hi
    simp only [solveLogDLoop, hc, if_neg hmiss]
    split_ifs with h1
    · exact ih _ _
    · exact ih _ _

theorem solveLogDLoop_all_miss (asinh pow10 : ℚ → ℚ) (m t b : ℚ) :
    ∀ (fuel : ℕ) (lo hi : ℚ),
      (∀ mid ∈ solveLogDMidpoints asinh pow10 m t b fuel lo hi,
        ¬ |simulateStretchAt asinh (pow10 mid) b m - t| < 0.0001) →
      solveLogDLoop asinh pow10 m t b fuel lo hi = 2 := by
  intro fuel
  induction fuel with
  | zero => intro lo hi _; rfl
  | succ n ih =>
    intro lo hi hmiss
    by_cases h1 : |simulateStretchAt asinh (pow10 ((lo + hi) / 2)) b m - t| < 0.0001
    · exact absurd h1 (hmiss _ (by
        simp only [solveLogDMidpoints, if_pos h1, List.mem_singleton]))
    · simp only [solveLogDLoop, if_neg h1]
      split_ifs with h2
      · apply ih
        intro mid hm
        apply hmiss
        simp only [solveLogDMidpoints, if_neg h1, if_pos h2]
        exact List.mem_cons_of_mem _ hm
      · apply ih
        intro mid hm
        apply hmiss
        simp only [solveLogDMidpoints, if_neg h1, if_neg h2]
        exact List.mem_cons_of_mem _ hm

/-- C1 (amended): `SolveLogD` returns `2.0` when the luminance median is below
`1e-9`; otherwise it returns either a bisection midpoint whose simulated
transfer output at the median is within `1e-4` (hence within `1e-3`) of the
target, or the untouched default `2.0` when no midpoint ever met the
tolerance — in which case nothing relates the returned value to the target. -/
theorem C1_solveLogD_default_or_tolerance (asinh pow10 : ℚ → ℚ) (luma : List ℚ)
    (t b : ℚ) :
    (imageMedian luma < 1e-9 → SolveLogD asinh pow10 luma t b = 2) ∧
    (SolveLogD asinh pow10 luma t b = 2 ∨
      |simulateStretchAt asinh (pow10 (SolveLogD asinh pow10 luma t b)) b
        (imageMedian luma) - t| < 0.0001) := by
  constructor
  · intro hmed
    simp only [SolveLogD]
    rw [if_pos hmed]
  · simp only [SolveLogD]
    split_ifs with h
    · exact Or.inl rfl
    · exact solveLogDLoop_default_or_hit asinh pow10 (imageMedian luma) t b 40 0 7

theorem C1_solveLogD_default_or_tolerance_witness :
    SolveLogD id (fun _ => 1) [0] (1 / 4) 6 = 2 := by
  have hmed : imageMedian [(0 : ℚ)] = 0 := by
    norm_num [imageMedian, List.insertionSort, medianOfSorted]
  exact (C1_solveLogD_default_or_tolerance id (fun _ => 1) [0] (1 / 4) 6).1
    (by rw [hmed]; norm_num)

theorem C1_counterexample :
    1e-9 ≤ imageMedian [(1 : ℚ) / 2] ∧
    SolveLogD id (fun _ => 1) [(1 : ℚ) / 2] 2 1 = 2 ∧
    1e-3 < |simulateStretchAt id 1 1 (imageMedian [(1 : ℚ) / 2]) - 2| := by
  have hmed : imageMedian [(1 : ℚ) / 2] = 1 / 2 := by
    norm_num [imageMedian, List.insertionSort, medianOfSorted]
  have hsim : ∀ x : ℚ, simulateStretchAt id ((fun _ : ℚ => (1 : ℚ)) x) 1 (1 / 2) = 1 / 2 := by
    intro x
    norm_num [simulateStretchAt]
  have habs : |(1 : ℚ) / 2 - 2| = 3 / 2 := by
    rw [abs_of_nonpos (by norm_num)]
    norm_num
  have hsolve : SolveLogD id (fun _ => 1) [(1 : ℚ) / 2] 2 1 = 2 := by
    simp only [SolveLogD]
    rw [hmed, if_neg (by norm_num)]
    exact solveLogDLoop_const_miss id (fun _ => 1) (1 / 2) 2 1 (1 / 2) hsim
      (by rw [habs]; norm_num) 40 0 7
  refine ⟨by rw [hmed]; norm_num, hsolve, ?_⟩
  rw [hmed]
  have h1 : simulateStretchAt id 1 1 ((1 : ℚ) / 2) = 1 / 2 := hsim 0
  rw [h1, habs]
  norm_num

/-- C9: when the luminance median is at least `1e-9` and none of the bisection
midpoints visited by `SolveLogD` produces a simulated output within `1e-4` of
the target, the function returns the untouched default `2.0` — not the last
midpoint, however much the interval has narrowed. -/
theorem C9_solveLogD_default_when_no_hit (asinh pow10 : ℚ → ℚ) (luma : List ℚ)
    (t b : ℚ) (hmed : 1e-9 ≤ imageMedian luma)
    (hmiss : ∀ mid ∈ solveLogDMidpoints asinh pow10 (imageMedian luma) t b 40 0 7,
      ¬ |simulateStretchAt asinh (pow10 mid) b (imageMedian luma) - t| < 0.0001) :
    SolveLogD asinh pow10 luma t b = 2 := by
  simp only [SolveLogD]
  split_ifs with h
  · rfl
  · exact solveLogDLoop_all_miss asinh pow10 (imageMedian luma) t b 40 0 7 hmiss

theorem C9_solveLogD_default_when_no_hit_witness :
    SolveLogD id (fun _ => 1) [(1 : ℚ) / 2] 5 1 = 2 := by
  have hmed : imageMedian [(1 : ℚ) / 2] = 1 / 2 := by
    norm_num [imageMedian, List.insertionSort, medianOfSorted]
  exact C9_solveLogD_default_when_no_hit id (fun _ => 1) [(1 : ℚ) / 2] 5 1
    (by rw [hmed]; norm_num)
    (by
      intro mid _
      rw [hmed]
      have h1 : simulateStretchAt id ((fun _ : ℚ => (1 : ℚ)) mid) 1 (1 / 2) = 1 / 2 := by
        norm_num [simulateStretchAt]
      rw [h1, show |(1 : ℚ) / 2 - 5| = 9 / 2 by rw [abs_of_nonpos (by norm_num)]; norm_num]
      norm_num)

/-! ## NormalizeInput (claim C8) -/

/-- C8: `NormalizeInput` raises the unsupported-input error exactly for
complex-sample sources — before any processing, so the error is independent of
the sample data — and every other supported format (8/16/32-bit integer,
32/64-bit float) succeeds. -/
theorem C8_normalize_rejects_complex_only (format : SampleFormat) (samples : List ℚ) :
    (∀ s : List ℚ, NormalizeInput ⟨SampleFormat.complex, s⟩ =
      Except.error complexErrorText) ∧
    ((∃ e, NormalizeInput ⟨format, samples⟩ = Except.error e) ↔
      format = SampleFormat.complex) := by
  refine ⟨fun s => rfl, ?_⟩
  cases format <;> simp [NormalizeInput]

/-! ## ReconstructColor (claim C2) -/

theorem reconstructColorRGB_fst (asinh : ℚ → ℚ) (powf : ℚ → ℚ → ℚ)
    (luma origR origG origB : List ℚ) (conv grip shadow D b : ℚ) :
    (ReconstructColorRGB asinh powf luma origR origG origB conv grip shadow D b).1 =
      (List.range origR.length).map
        (reconstructChannelAt powf luma origR origG origB conv grip shadow
          (HyperbolicStretch asinh D b 0 origR) origR) := rfl

theorem reconstructColorRGB_snd (asinh : ℚ → ℚ) (powf : ℚ → ℚ → ℚ)
    (luma origR origG origB : List ℚ) (conv grip shadow D b : ℚ) :
    (ReconstructColorRGB asinh powf luma origR origG origB conv grip shadow D b).2.1 =
      (List.range origR.length).map
        (reconstructChannelAt powf luma origR origG origB conv grip shadow
          (HyperbolicStretch asinh D b 0 origG) origG) := rfl

theorem reconstructColorRGB_thd (asinh : ℚ → ℚ) (powf : ℚ → ℚ → ℚ)
    (luma origR origG origB : List ℚ) (conv grip shadow D b : ℚ) :
    (ReconstructColorRGB asinh powf luma origR origG origB conv grip shadow D b).2.2 =
      (List.range origR.length).map
        (reconstructChannelAt powf luma origR origG origB conv grip shadow
          (HyperbolicStretch asinh D b 0 origB) origB) := rfl

theorem reconstructChannelAt_grip_one (powf : ℚ → ℚ → ℚ)
    (luma origR origG origB scalar c : List ℚ) (conv : ℚ) (i : ℕ)
    (hk : powf (luma.getD i 0) conv = 0)
    (hc0 : 0 ≤ c.getD i 0)
    (hcle : c.getD i 0 ≤ origR.getD i 0 + origG.getD i 0 + origB.getD i 0)
    (hL0 : 0 ≤ luma.getD i 0) (hL1 : luma.getD i 0 ≤ 1) :
    reconstructChannelAt powf luma origR origG origB conv 1 0 scalar c i =
      0.995 * (luma.getD i 0 * anchoredFrac origR origG origB c i) + 0.005 := by
  have hden : (0 : ℚ) < origR.getD i 0 + origG.getD i 0 + origB.getD i 0 + 1e-9 := by
    have h := le_trans hc0 hcle
    have he : (0 : ℚ) < 1e-9 := by norm_num
    linarith
  have hfrac0 : 0 ≤ anchoredFrac origR origG origB c i :=
    div_nonneg hc0 hden.le
  have hfrac1 : anchoredFrac origR origG origB c i < 1 := by
    rw [anchoredFrac, div_lt_one hden]
    linarith
  have hv0 : 0 ≤ luma.getD i 0 * anchoredFrac origR origG origB c i :=
    mul_nonneg hL0 hfrac0
  have hv1 : luma.getD i 0 * anchoredFrac origR origG origB c i < 1 :=
    lt_of_le_of_lt (by nlinarith) hfrac1
  simp only [reconstructChannelAt, hk]
  rw [if_neg (by norm_num)]
  rw [show luma.getD i 0 * (anchoredFrac origR origG origB c i * (1 - 0) + 1 * 0) =
    luma.getD i 0 * anchoredFrac origR origG origB c i by ring]
  rw [truncate01_eq_self (by linarith) (by nlinarith)]
  ring

/-- C2 (amended): with `colorGrip = 1`, `shadowConvergence = 0` and the
white-convergence factor `k = 0` at every pixel, each output channel is
exactly `0.995 * L * (orig_c / (R+G+B+1e-9)) + 0.005`: the anchored color
fractions are preserved only up to the fixed pedestal `v*0.995 + 0.005`
applied at the end (so raw output ratios `out_c / Σ out_c` are pulled toward
1/3 on dim pixels and equal `orig_c / Σ orig_c` only before the pedestal). -/
theorem C2_reconstruct_color_fracs (asinh : ℚ → ℚ) (powf : ℚ → ℚ → ℚ)
    (luma origR origG origB : List ℚ) (conv D b : ℚ)
    (hk : ∀ i, powf (luma.getD i 0) conv = 0)
    (hR : ∀ i, 0 ≤ origR.getD i 0) (hG : ∀ i, 0 ≤ origG.getD i 0)
    (hB : ∀ i, 0 ≤ origB.getD i 0)
    (hL : ∀ i, 0 ≤ luma.getD i 0 ∧ luma.getD i 0 ≤ 1) :
    ∀ i < origR.length,
      (ReconstructColorRGB asinh powf luma origR origG origB conv 1 0 D b).1.getD i 0 =
        0.995 * (luma.getD i 0 * anchoredFrac origR origG origB origR i) + 0.005 ∧
      (ReconstructColorRGB asinh powf luma origR origG origB conv 1 0 D b).2.1.getD i 0 =
        0.995 * (luma.getD i 0 * anchoredFrac origR origG origB origG i) + 0.005 ∧
      (ReconstructColorRGB asinh powf luma origR origG origB conv 1 0 D b).2.2.getD i 0 =
        0.995 * (luma.getD i 0 * anchoredFrac origR origG origB origB i) + 0.005 := by
  intro i hi
  refine ⟨?_, ?_, ?_⟩
  · rw [reconstructColorRGB_fst, getD_map_range _ hi]
    exact reconstructChannelAt_grip_one powf luma origR origG origB _ origR conv i
      (hk i) (hR i) (by have := hG i; have := hB i; linarith) (hL i).1 (hL i).2
  · rw [reconstructColorRGB_snd, getD_map_range _ hi]
    exact reconstructChannelAt_grip_one powf luma origR origG origB _ origG conv i
      (hk i) (hG i) (by have := hR i; have := hB i; linarith) (hL i).1 (hL i).2
  · rw [reconstructColorRGB_thd, getD_map_range _ hi]
    exact reconstructChannelAt_grip_one powf luma origR origG origB _ origB conv i
      (hk i) (hB i) (by have := hR i; have := hG i; linarith) (hL i).1 (hL i).2

theorem C2_reconstruct_color_fracs_witness :
    (ReconstructColorRGB id (fun _ _ : ℚ => 0) [1 / 2] [1 / 4] [1 / 8] [1 / 8]
        2 1 0 1 1).1.getD 0 0 =
      0.995 * ((1 / 2 : ℚ) * anchoredFrac [1 / 4] [1 / 8] [1 / 8] [1 / 4] 0) + 0.005 := by
  have h := (C2_reconstruct_color_fracs id (fun _ _ : ℚ => 0) [1 / 2] [1 / 4] [1 / 8] [1 / 8]
    2 1 1 (fun i => rfl)
    (fun i => by cases i <;> norm_num)
    (fun i => by cases i <;> norm_num)
    (fun i => by cases i <;> norm_num)
    (fun i => by cases i <;> norm_num)
    0 (by simp)).1
  simpa using h

theorem C2_counterexample :
    (fun x _ : ℚ => x) (([(0 : ℚ)]).getD 0 0) 1 = 0 ∧
    (ReconstructColorRGB id (fun x _ : ℚ => x) [0] [1 / 2] [0] [0] 1 1 0 1 1).1.getD 0 0 /
        ((ReconstructColorRGB id (fun x _ : ℚ => x) [0] [1 / 2] [0] [0] 1 1 0 1 1).1.getD 0 0 +
          (ReconstructColorRGB id (fun x _ : ℚ => x) [0] [1 / 2] [0] [0] 1 1 0 1 1).2.1.getD 0 0 +
          (ReconstructColorRGB id (fun x _ : ℚ => x) [0] [1 / 2] [0] [0] 1 1 0 1 1).2.2.getD 0 0) ≠
      anchoredFrac [1 / 2] [0] [0] [1 / 2] 0 := by
  have hR := reconstructChannelAt_grip_one (fun x _ : ℚ => x) [0] [1 / 2] [0] [0]
    (HyperbolicStretch id 1 1 0 [1 / 2]) [1 / 2] 1 0 (by norm_num) (by norm_num)
    (by norm_num) (by norm_num) (by norm_num)
  have hG := reconstructChannelAt_grip_one (fun x _ : ℚ => x) [0] [1 / 2] [0] [0]
    (HyperbolicStretch id 1 1 0 [0]) [0] 1 0 (by norm_num) (by norm_num)
    (by norm_num) (by norm_num) (by norm_num)
  have hB := reconstructChannelAt_grip_one (fun x _ : ℚ => x) [0] [1 / 2] [0] [0]
    (HyperbolicStretch id 1 1 0 [0]) [0] 1 0 (by norm_num) (by norm_num)
    (by norm_num) (by norm_num) (by norm_num)
  have e1 : (ReconstructColorRGB id (fun x _ : ℚ => x) [0] [1 / 2] [0] [0] 1 1 0 1 1).1.getD 0 0
      = 1 / 200 := by
    rw [reconstructColorRGB_fst, getD_map_range _ (by simp), hR]
    norm_num [anchoredFrac]
  have e2 : (ReconstructColorRGB id (fun x _ : ℚ => x) [0] [1 / 2] [0] [0] 1 1 0 1 1).2.1.getD 0 0
      = 1 / 200 := by
    rw [reconstructColorRGB_snd, getD_map_range _ (by simp), hG]
    norm_num [anchoredFrac]
  have e3 : (ReconstructColorRGB id (fun x _ : ℚ => x) [0] [1 / 2] [0] [0] 1 1 0 1 1).2.2.getD 0 0
      = 1 / 200 := by
    rw [reconstructColorRGB_thd, getD_map_range _ (by simp), hB]
    norm_num [anchoredFrac]
  refine ⟨rfl, ?_⟩
  rw [e1, e2, e3]
  rw [show anchoredFrac [(1 : ℚ) / 2] [0] [0] [1 / 2] 0 = (1 / 2) / (1 / 2 + 1e-9) by
    simp [anchoredFrac]]
  norm_num

/-! ## Anchor estimators (claim C5) -/

theorem channelOf_all_zero {img : PImage} (h : allZeroImage img) (c : ℕ) :
    ∀ v ∈ channelOf img c, v = 0 := by
  by_cases hc : c < img.channels.length
  · have hmem : channelOf img c ∈ img.channels := by
      unfold channelOf
      rw [List.getD_eq_getElem _ _ hc]
      exact List.getElem_mem hc
    exact fun v hv => h _ hmem v hv
  · have hnil : channelOf img c = [] := List.getD_eq_default _ _ (le_of_not_lt hc)
    rw [hnil]
    intro v hv
    simp at hv

theorem stridedOf_all_zero {data : List ℚ} (h : ∀ v ∈ data, v = 0)
    (count stride : ℕ) : ∀ v ∈ stridedOf data count stride, v = 0 := by
  intro v hv
  simp only [stridedOf, List.mem_map, List.mem_range] at hv
  obtain ⟨k, _, rfl⟩ := hv
  exact getD_eq_zero_of_all_zero h _

theorem subsamplePercentile_all_zero {data : List ℚ} (h : ∀ v ∈ data, v = 0)
    (count stride : ℕ) (pct : ℚ) : SubsamplePercentile data count stride pct = 0 := by
  unfold SubsamplePercentile
  split
  · rfl
  · exact percentileInPlace_all_zero (stridedOf_all_zero h _ _) pct

theorem calculateAnchor_all_zero {img : PImage} (h : allZeroImage img) :
    CalculateAnchor img = 0 := by
  simp only [CalculateAnchor]
  split_ifs with h3
  · rw [List.foldl_ext _ (fun (m : ℚ) (_ : ℕ) => min m 0) 1
      (fun a c _ => by rw [subsamplePercentile_all_zero (channelOf_all_zero h c)])]
    rw [show List.range 3 = [0, 1, 2] from rfl]
    simp only [List.foldl_cons, List.foldl_nil]
    rw [min_eq_right (by norm_num : (0 : ℚ) ≤ 1), min_self, min_self]
    rw [max_eq_left (by norm_num : (0 : ℚ) - 0.00025 ≤ 0)]
  · rw [subsamplePercentile_all_zero (channelOf_all_zero h 0)]
    rw [max_eq_left (by norm_num : (0 : ℚ) - 0.00025 ≤ 0)]

theorem lumaChannelOf_all_zero {img : PImage} {profile : SensorProfile}
    (h : allZeroImage img) : ∀ v ∈ lumaChannelOf img profile, v = 0 := by
  unfold lumaChannelOf
  split
  · intro v hv
    simp only [List.mem_map, List.mem_range] at hv
    obtain ⟨i, _, rfl⟩ := hv
    rw [getD_eq_zero_of_all_zero (channelOf_all_zero h 0),
      getD_eq_zero_of_all_zero (channelOf_all_zero h 1),
      getD_eq_zero_of_all_zero (channelOf_all_zero h 2)]
    ring
  · exact channelOf_all_zero h 0

theorem adaptiveSubsample_all_zero {img : PImage} {profile : SensorProfile}
    (h : allZeroImage img) : ∀ v ∈ adaptiveSubsample img profile, v = 0 := by
  intro v hv
  simp only [adaptiveSubsample, List.mem_map, List.mem_range] at hv
  obtain ⟨k, _, rfl⟩ := hv
  rw [getD_eq_zero_of_all_zero (lumaChannelOf_all_zero h)]
  norm_num

theorem histBinOf_zero : histBinOf 0 = 0 := by
  unfold histBinOf
  rw [min_eq_left (by norm_num : (0 : ℚ) ≤ 0.999999)]
  norm_num

theorem countP_all_zero {sample : List ℚ} (h : ∀ v ∈ sample, v = 0) (p : ℚ → Bool) :
    sample.countP p = if p 0 then sample.length else 0 := by
  induction sample with
  | nil => simp
  | cons a l ih =>
    have ha : a = 0 := h a (by simp)
    have hl : ∀ v ∈ l, v = 0 := fun v hv => h v (by simp [hv])
    subst ha
    rw [List.countP_cons, ih hl]
    by_cases hp : p 0
    · simp [hp]
    · simp [hp]

theorem histCounts_all_zero {sample : List ℚ} (h : ∀ v ∈ sample, v = 0) (bin : ℕ) :
    histCounts sample bin = if bin = 0 then sample.length else 0 := by
  unfold histCounts
  rw [countP_all_zero h, histBinOf_zero]
  by_cases hb : bin = 0
  · subst hb
    simp
  · simp [hb, Ne.symm hb]

theorem smoothedHistAt_point_mass (m i : ℕ) :
    smoothedHistAt (fun b => if b = 0 then m else 0) i =
      if i ≤ 25 then (m : ℚ) / 50 else 0 := by
  simp only [smoothedHistAt]
  by_cases hi : i ≤ 25
  · rw [if_pos hi]
    rw [Finset.sum_eq_single_of_mem (25 - i) (Finset.mem_range.mpr (by omega))]
    · have hj : (i : ℤ) - 25 + ((25 - i : ℕ) : ℤ) = 0 := by omega
      rw [hj]
      norm_num
    · intro b hb hne
      have hb' : b < 50 := Finset.mem_range.mp hb
      split_ifs with h1 h2
      · exfalso
        omega
      · simp
      · rfl
  · rw [if_neg hi]
    rw [Finset.sum_eq_zero]
    · norm_num
    · intro b hb
      have hb' : b < 50 := Finset.mem_range.mp hb
      split_ifs with h1 h2
      · exfalso
        omega
      · simp
      · rfl

theorem init_le_foldMaxOver (f : ℕ → ℚ) (l : List ℕ) :
    ∀ init : ℚ, init ≤ foldMaxOver f l init := by
  unfold foldMaxOver
  induction l with
  | nil => intro init; simp
  | cons a l ih =>
    intro init
    exact le_trans (le_max_left _ _) (ih (max init (f a)))

theorem le_foldMaxOver (f : ℕ → ℚ) (l : List ℕ) {i : ℕ} (hi : i ∈ l) :
    ∀ init : ℚ, f i ≤ foldMaxOver f l init := by
  induction l with
  | nil => simp at hi
  | cons a l ih =>
    intro init
    rcases List.mem_cons.mp hi with rfl | hmem
    · exact le_trans (le_max_right _ _)
        (init_le_foldMaxOver f l (max init (f i)))
    · exact ih hmem (max init (f a))

theorem foldMaxOver_le (f : ℕ → ℚ) (l : List ℕ) :
    ∀ (init c : ℚ), (∀ i ∈ l, f i ≤ c) → init ≤ c → foldMaxOver f l init ≤ c := by
  unfold foldMaxOver
  induction l with
  | nil =>
    intro init c _ h2
    simpa using h2
  | cons a l ih =>
    intro init c h1 h2
    exact ih _ _ (fun i hi => h1 i (List.mem_cons_of_mem _ hi))
      (max_le h2 (h1 a (List.mem_cons_self _ _)))

theorem foldl_peak_stable (f : ℕ → ℚ) (l : List ℕ) :
    ∀ best : ℕ × ℚ, (∀ i ∈ l, ¬ f i > best.2) →
      l.foldl (fun best i => if f i > best.2 then (i, f i) else best) best = best := by
  induction l with
  | nil => intro best _; rfl
  | cons a l ih =>
    intro best h
    simp only [List.foldl_cons]
    rw [if_neg (h a (List.mem_cons_self _ _))]
    exact ih best fun i hi => h i (List.mem_cons_of_mem _ hi)

theorem peakScan_eq_start (f : ℕ → ℚ) (start bins : ℕ) (h : ∀ i, f i ≤ f start) :
    peakScan f start bins = (start, f start) := by
  unfold peakScan
  exact foldl_peak_stable f _ (start, f start) fun i _ => not_lt.mpr (h i)

theorem foldl_lastBelow_stable (f : ℕ → ℚ) (bound : ℚ) :
    ∀ (l : List ℕ) (acc : Option ℕ), (∀ i ∈ l, ¬ f i < bound) →
      l.foldl (fun acc i => if f i < bound then some i else acc) acc = acc := by
  intro l
  induction l with
  | nil => intro acc _; rfl
  | cons a l ih =>
    intro acc h
    simp only [List.foldl_cons]
    rw [if_neg (h a (List.mem_cons_self _ _))]
    exact ih acc fun i hi => h i (List.mem_cons_of_mem _ hi)

theorem lastBelow_eq_none (f : ℕ → ℚ) (bound : ℚ) (n : ℕ)
    (h : ∀ i, ¬ f i < bound) : lastBelow f bound n = none := by
  unfold lastBelow
  exact foldl_lastBelow_stable f bound (List.range n) none fun i _ => h i

theorem calculateAnchorAdaptive_all_zero {img : PImage} (profile : SensorProfile)
    (h : allZeroImage img) : CalculateAnchorAdaptive img profile = 0 := by
  have hz : ∀ v ∈ adaptiveSubsample img profile, v = 0 := adaptiveSubsample_all_zero h
  have hhs : smoothedHistAt (histCounts (adaptiveSubsample img profile)) =
      fun i => if i ≤ 25 then ((adaptiveSubsample img profile).length : ℚ) / 50 else 0 := by
    funext i
    rw [show histCounts (adaptiveSubsample img profile) =
      fun b => if b = 0 then (adaptiveSubsample img profile).length else 0 from
      funext (histCounts_all_zero hz)]
    exact smoothedHistAt_point_mass _ i
  simp only [CalculateAnchorAdaptive]
  rw [hhs]
  by_cases hm0 : (adaptiveSubsample img profile).length = 0
  · -- empty subsample: the histogram is identically zero
    have hfun : (fun i : ℕ =>
        if i ≤ 25 then ((adaptiveSubsample img profile).length : ℚ) / 50 else 0) =
        fun _ => (0 : ℚ) := by
      funext i
      rw [hm0]
      norm_num
    rw [hfun]
    have hmb : foldMaxOver (fun _ => (0 : ℚ)) (List.range (min 65536 100)) 0 = 0 :=
      le_antisymm (foldMaxOver_le _ _ 0 0 (fun i _ => le_rfl) le_rfl)
        (init_le_foldMaxOver _ _ 0)
    rw [hmb, if_neg (lt_irrefl 0), if_neg (by norm_num : ¬ 100 ≥ 65536)]
    rw [peakScan_eq_start _ 100 65536 fun i => le_rfl]
    rw [lastBelow_eq_none _ _ _ (by intro i; norm_num)]
    simp [percentileInPlace_all_zero hz]
  · -- nonempty subsample: all mass sits in bin 0, the peak is bin 0
    have hmq : (0 : ℚ) < ((adaptiveSubsample img profile).length : ℚ) / 50 := by
      have : 0 < (adaptiveSubsample img profile).length := Nat.pos_of_ne_zero hm0
      positivity
    have hle : ∀ i : ℕ, (fun i : ℕ =>
        if i ≤ 25 then ((adaptiveSubsample img profile).length : ℚ) / 50 else 0) i ≤
        (fun i : ℕ =>
        if i ≤ 25 then ((adaptiveSubsample img profile).length : ℚ) / 50 else 0) 0 := by
      intro i
      simp only
      rw [if_pos (by omega : (0 : ℕ) ≤ 25)]
      split_ifs
      · exact le_rfl
      · exact hmq.le
    have hmb : (0 : ℚ) < foldMaxOver (fun i : ℕ =>
        if i ≤ 25 then ((adaptiveSubsample img profile).length : ℚ) / 50 else 0)
        (List.range (min 65536 100)) 0 := by
      have h0 := le_foldMaxOver (fun i : ℕ =>
        if i ≤ 25 then ((adaptiveSubsample img profile).length : ℚ) / 50 else 0)
        (List.range (min 65536 100)) (i := 0) (by norm_num) 0
      rw [if_pos (by omega : (0 : ℕ) ≤ 25)] at h0
      exact lt_of_lt_of_le hmq h0
    rw [if_pos hmb]
    rw [peakScan_eq_start _ 0 65536 hle]
    simp [lastBelow, percentileInPlace_all_zero hz]

/-- C5: both anchor estimators — the statistical `CalculateAnchor` and the
adaptive `CalculateAnchorAdaptive` — return a nonnegative anchor for every
valid normalized input image, and return exactly 0 on an all-zero image. -/
theorem C5_anchor_nonneg_and_zero (img : PImage) (profile : SensorProfile)
    (hv : validImage img) :
    0 ≤ CalculateAnchor img ∧ 0 ≤ CalculateAnchorAdaptive img profile ∧
    (allZeroImage img →
      CalculateAnchor img = 0 ∧ CalculateAnchorAdaptive img profile = 0) := by
  refine ⟨?_, ?_, fun hz =>
    ⟨calculateAnchor_all_zero hz, calculateAnchorAdaptive_all_zero profile hz⟩⟩
  · simp only [CalculateAnchor]
    split_ifs <;> exact le_max_left _ _
  · simp only [CalculateAnchorAdaptive]
    exact le_max_left _ _

theorem C5_anchor_nonneg_and_zero_witness :
    CalculateAnchor ⟨1, 1, [[0]]⟩ = 0 ∧
      CalculateAnchorAdaptive ⟨1, 1, [[0]]⟩ ⟨1, 1, 1⟩ = 0 :=
  (C5_anchor_nonneg_and_zero ⟨1, 1, [[0]]⟩ ⟨1, 1, 1⟩
    ⟨by norm_num [imagePixels], by
      intro ch hch v hv
      simp only [List.mem_singleton] at hch
      subst hch
      simp only [List.mem_singleton] at hv
      subst hv
      norm_num⟩).2.2
    (by
      intro ch hch v hv
      simp only [List.mem_singleton] at hch
      subst hch
      simpa using hv)

/-! ## Linear expansion (claims C4, C10) -/

/-- C10: the Smart-Max 3×3 neighborhood test of `ApplyLinearExpansion` reads
its neighbor samples through `target(x, y)`, i.e. from channel 0 only: its
value is unchanged by arbitrary modification of every other channel — also
when the located global maximum sample lies in another channel. -/
theorem C10_smartMax_reads_channel0 (img1 img2 : PImage) (pos : ℕ × ℕ)
    (absMax : ℚ) (hw : img1.width = img2.width) (hh : img1.height = img2.height)
    (hc : channelOf img1 0 = channelOf img2 0) :
    smartMaxNeighbor img1 pos absMax = smartMaxNeighbor img2 pos absMax := by
  obtain ⟨w1, h1, c1⟩ := img1
  obtain ⟨w2, h2, c2⟩ := img2
  simp only at hw hh
  subst hw
  subst hh
  simp only [channelOf] at hc
  simp only [smartMaxNeighbor, sampleAt, channelOf]
  simp only [hc]

theorem C10_smartMax_reads_channel0_witness :
    smartMaxNeighbor ⟨1, 1, [[1 / 10], [9 / 10]]⟩ (0, 0) (9 / 10) =
      smartMaxNeighbor ⟨1, 1, [[1 / 10], [1 / 2]]⟩ (0, 0) (9 / 10) :=
  C10_smartMax_reads_channel0 ⟨1, 1, [[1 / 10], [9 / 10]]⟩ ⟨1, 1, [[1 / 10], [1 / 2]]⟩
    (0, 0) (9 / 10) rfl rfl rfl

theorem expansionSubsample_half : expansionSubsample ⟨1, 1, [[1 / 2]]⟩ = [1 / 2] := by
  simp [expansionSubsample, imagePixels, numStrided, stridedOf, List.range_succ]

theorem expansionLow_half : expansionLow ⟨1, 1, [[1 / 2]]⟩ = 1 / 2 := by
  rw [expansionLow, expansionSubsample_half]
  simp [PercentileInPlace, PercentileFromSorted, List.insertionSort, List.orderedInsert]

theorem maximumSampleValue_half : MaximumSampleValue ⟨1, 1, [[1 / 2]]⟩ = 1 / 2 := by
  rw [show MaximumSampleValue ⟨1, 1, [[1 / 2]]⟩ = max 0 (1 / 2) from rfl]
  exact max_eq_right (by norm_num)

theorem locateMaxPos_1x1 (img : PImage) (hw : img.width = 1) (hh : img.height = 1) :
    locateMaxPos img = (0, 0) := by
  simp [locateMaxPos, imagePixels, hw, hh, Nat.mod_one]

theorem smartMaxNeighbor_half :
    smartMaxNeighbor ⟨1, 1, [[1 / 2]]⟩ (0, 0) (1 / 2) = 0 := by
  simp [smartMaxNeighbor, sampleAt, channelOf, List.range']

theorem useAbsoluteMax_half : useAbsoluteMax ⟨1, 1, [[1 / 2]]⟩ = false := by
  simp only [useAbsoluteMax, maximumSampleValue_half]
  rw [if_pos (by norm_num : (1 : ℚ) / 2 > 0.001)]
  rw [locateMaxPos_1x1 _ rfl rfl, smartMaxNeighbor_half]
  exact decide_eq_false (by norm_num)

theorem expansionHigh_half : expansionHigh ⟨1, 1, [[1 / 2]]⟩ = 1 / 2 := by
  simp only [expansionHigh, useAbsoluteMax_half, Bool.false_eq_true, if_false]
  rw [expansionSubsample_half]
  simp [PercentileFromSorted, List.insertionSort, List.orderedInsert]

/-- C4 (amended): `ApplyLinearExpansion` is a no-op on the image (with a fully
zeroed diagnostics record) when the requested factor is at most 0.001; and
when the resolved high bound does not exceed the resolved low bound it is a
no-op on the image with the clamp-percentage diagnostics zeroed and the bound
fields reporting the resolved low and high values (not zero). -/
theorem C4_linear_expansion_noop (img : PImage) (factor : ℚ) :
    (factor ≤ 0.001 → ApplyLinearExpansion img factor = (img, ⟨0, 0, 0, 0⟩)) ∧
    (0.001 < factor → expansionHigh img ≤ expansionLow img →
      ApplyLinearExpansion img factor =
        (img, ⟨0, 0, expansionLow img, expansionHigh img⟩)) := by
  constructor
  · intro h
    simp only [ApplyLinearExpansion]
    rw [if_pos h]
  · intro h1 h2
    simp only [ApplyLinearExpansion]
    rw [if_neg (not_le.mpr h1), if_pos h2]

theorem C4_linear_expansion_noop_witness :
    ApplyLinearExpansion ⟨1, 1, [[1 / 2]]⟩ 1 =
      (⟨1, 1, [[1 / 2]]⟩, ⟨0, 0, expansionLow ⟨1, 1, [[1 / 2]]⟩,
        expansionHigh ⟨1, 1, [[1 / 2]]⟩⟩) :=
  (C4_linear_expansion_noop ⟨1, 1, [[1 / 2]]⟩ 1).2 (by norm_num)
    (by rw [expansionLow_half, expansionHigh_half])

theorem C4_counterexample :
    (ApplyLinearExpansion ⟨1, 1, [[1 / 2]]⟩ 1).1 = ⟨1, 1, [[1 / 2]]⟩ ∧
    (ApplyLinearExpansion ⟨1, 1, [[1 / 2]]⟩ 1).2 ≠ ⟨0, 0, 0, 0⟩ := by
  have heval : ApplyLinearExpansion ⟨1, 1, [[1 / 2]]⟩ 1 =
      (⟨1, 1, [[1 / 2]]⟩, ⟨0, 0, 1 / 2, 1 / 2⟩) := by
    simp only [ApplyLinearExpansion]
    rw [if_neg (by norm_num : ¬ (1 : ℚ) ≤ 0.001)]
    rw [expansionLow_half, expansionHigh_half]
    rw [if_pos (le_refl ((1 : ℚ) / 2))]
  refine ⟨by rw [heval], ?_⟩
  rw [heval]
  simp only [ne_eq, LinearExpansionStats.mk.injEq]
  norm_num

end VeraLux
